import Mathlib

/-! Shallow embedding of the greenfield-challenger executor package
(src/executor/executor.go): the multi-endpoint client pool with
health-driven failover, the bounded-retry height query, the cached
validator-set lookups and the light-block builder.  Remote calls are
modelled as explicit inputs (per-handle poll outcomes, fetch results);
machine integers are `Nat` with an explicit `% 2 ^ 64` where the source
performs uint64 addition. -/

set_option linter.unusedVariables false

/-- Validator record: only the fields the embedded code touches
(the `RelayerBlsKey` bytes, an identifying address).  A byte is a
`Nat`, reduced modulo 256 where it is encoded. -/
structure Validator where
  address : String
  relayerBlsKey : List Nat
  deriving DecidableEq, Inhabited

/-- One remote node handle (`ExecutorClient` in the source): provider
address plus the mutable health metadata `Height` and `UpdatedAt`
(seconds).  The two RPC channel objects are opaque and are carried by
the poll/fetch inputs of the functions below instead. -/
structure ExecutorClient where
  provider : String
  height : Nat
  updatedAt : Nat
  deriving DecidableEq, Inhabited

/-- The executor state (`Executor` in the source): active index
`clientIdx`, the fixed handle list `greenfieldClients`, and the
validator cache `validators` (nil at construction).  The mutex, key
material, codec and config collaborators are not part of the value
state. -/
structure Executor where
  clientIdx : Nat
  greenfieldClients : List ExecutorClient
  validators : List Validator
  deriving DecidableEq, Inhabited

/-- Mirrors `initGreenfieldClients`: one handle per configured rpc
address, `UpdatedAt` set to the construction time, `Height` left at
the uint64 zero value.  The grpc and rpc channel objects are opaque
and omitted. -/
def initGreenfieldClients (rpcAddrs : List String) (now : Nat) : List ExecutorClient :=
  rpcAddrs.map fun a => { provider := a, height := 0, updatedAt := now }

/-- Mirrors `NewGreenfieldExecutor`: active index 0, handles built from
the configured addresses, validator cache not initialised (nil). -/
def NewGreenfieldExecutor (rpcAddrs : List String) (now : Nat) : Executor :=
  { clientIdx := 0
    greenfieldClients := initGreenfieldClients rpcAddrs now
    validators := [] }

/-- Mirrors the per-handle body of `UpdateClientLoop` (executor.go
lines 192-206): first the staleness check (`time.Since(UpdatedAt) >
DataSeedDenyServiceThreshold`), which logs the message; the
`config.SendTelegramMessage` call to the alert sink at that point is
commented out in the source, so the third component (alert-sink
messages) is always empty.  Then the height poll: `p` is the outcome
of `getLatestBlockHeightWithRetry` on this handle; on error the
handle is left untouched and the error is logged (`continue`), on
success `Height` and `UpdatedAt` are overwritten. -/
def updateClient (denyT now : Nat) (p : Except String Nat) (c : ExecutorClient) :
    ExecutorClient × List String × List String :=
  let staleLogs : List String :=
    if denyT < now - c.updatedAt then
      ["data seed " ++ c.provider ++ " is not accessable"]
    else []
  match p with
  | Except.error err =>
      (c, staleLogs ++ ["get latest block height error, err=" ++ err], [])
  | Except.ok h => ({ c with height := h, updatedAt := now }, staleLogs, [])

/-- The collect phase of one `UpdateClientLoop` tick: fold
`updateClient` over the handle list in order, threading the handle
index so that `poll i` is the poll outcome of handle `i`.  Returns the
updated handles, the log messages and the alert-sink messages. -/
def collectClients (denyT now : Nat) (poll : Nat → Except String Nat) :
    Nat → List ExecutorClient → List ExecutorClient × List String × List String
  | _, [] => ([], [], [])
  | i, c :: rest =>
    let u := updateClient denyT now (poll i) c
    let r := collectClients denyT now poll (i + 1) rest
    (u.1 :: r.1, u.2.1 ++ r.2.1, u.2.2 ++ r.2.2)

/-- Mirrors the highest-height scan of `UpdateClientLoop` (lines
207-214): running maximum starting from `(0, 0)`, updated only on a
strictly greater height, so the first handle attaining the maximum
keeps the index. -/
def findHighestAux : List ExecutorClient → Nat → Nat × Nat → Nat × Nat
  | [], _, acc => acc
  | c :: rest, idx, (bh, bi) =>
    if bh < c.height then findHighestAux rest (idx + 1) (c.height, idx)
    else findHighestAux rest (idx + 1) (bh, bi)

/-- The `highestHeight, highestIdx` computation over the whole handle
list. -/
def findHighest (clients : List ExecutorClient) : Nat × Nat :=
  findHighestAux clients 0 (0, 0)

/-- Height of the handle at index `k` (zero if out of range, matching
the uint64 zero value; the theorems carry the in-range hypotheses). -/
def heightAt (l : List ExecutorClient) (k : Nat) : Nat :=
  (l.getD k default).height

/-- Output of one monitor tick: the executor state afterwards, the log
messages and the alert-sink messages. -/
structure TickOutput where
  state : Executor
  logs : List String
  alerts : List String
  deriving DecidableEq

/-- One tick of `UpdateClientLoop` (executor.go lines 190-221): log
the banner, run the collect phase over every handle, compute
`highestHeight`/`highestIdx`, and reassign `clientIdx` to `highestIdx`
exactly when `Height(clientIdx) + FallBehindThreshold < highestHeight`
holds in uint64 arithmetic (the addition is `% 2 ^ 64`).  `denyT` is
`DataSeedDenyServiceThreshold` and `fallT` is `FallBehindThreshold`,
constants configured outside the embedded file.  The validator cache
is untouched by this loop. -/
def updateClientTick (denyT fallT now : Nat) (poll : Nat → Except String Nat)
    (e : Executor) : TickOutput :=
  { state :=
      { e with
        clientIdx :=
          if (((collectClients denyT now poll 0 e.greenfieldClients).1.getD
                  e.clientIdx default).height + fallT) % 2 ^ 64 <
              (findHighest (collectClients denyT now poll 0 e.greenfieldClients).1).1 then
            (findHighest (collectClients denyT now poll 0 e.greenfieldClients).1).2
          else e.clientIdx
        greenfieldClients := (collectClients denyT now poll 0 e.greenfieldClients).1 }
    logs := "start to monitor greenfield data-seeds healthy" ::
      (collectClients denyT now poll 0 e.greenfieldClients).2.1
    alerts := (collectClients denyT now poll 0 e.greenfieldClients).2.2 }

/-- A sequence of monitor ticks, each with its wall-clock time and its
per-handle poll outcomes. -/
def applyTicks (denyT fallT : Nat) :
    List (Nat × (Nat → Except String Nat)) → Executor → Executor
  | [], e => e
  | (now, poll) :: rest, e =>
    applyTicks denyT fallT rest (updateClientTick denyT fallT now poll e).state

/-- Modelled from the spec: the bounded-retry combinator behind
`getLatestBlockHeightWithRetry`.  The source calls the retry
library's `Do` with the repository options `common.RtyAttem` (attempt
budget), `common.RtyDelay` (fixed delay, irrelevant to the values
computed) and `common.RtyErr` (return the last error only), which are
declared outside the embedded file; the spec fixes their meaning (a
fixed maximum attempt count, per-attempt logging, last error on
exhaustion).  `retryAux op n fuel` runs attempt `n` with `fuel`
further attempts allowed: on success it stops; on failure it invokes
the per-attempt logging callback and, if attempts remain, retries.
It returns the result, the number of logging-callback invocations and
the number of attempts made. -/
def retryAux {A : Type} (op : Nat → Except String A) :
    Nat → Nat → Except String A × Nat × Nat
  | n, fuel =>
    match op n with
    | Except.ok a => (Except.ok a, 0, 1)
    | Except.error e =>
      match fuel with
      | 0 => (Except.error e, 1, 1)
      | fuel' + 1 =>
        ((retryAux op (n + 1) fuel').1,
          (retryAux op (n + 1) fuel').2.1 + 1,
          (retryAux op (n + 1) fuel').2.2 + 1)

/-- Mirrors `getLatestBlockHeightWithRetry`: the height query run
under the retry combinator with `maxAttempts` total attempts
(`common.RtyAttem`). -/
def getLatestBlockHeightWithRetry {A : Type} (op : Nat → Except String A)
    (maxAttempts : Nat) : Except String A × Nat × Nat :=
  retryAux op 0 (maxAttempts - 1)

/-- Result of the validator-set query at a height, as used by
`QueryTendermintLightBlock`. -/
structure ResultValidators where
  validators : List Validator
  deriving DecidableEq, Inhabited

/-- Result of the commit query at a height; the payload is opaque to
the embedded control flow. -/
structure ResultCommit where
  signedHeader : String
  deriving DecidableEq, Inhabited

/-- Outcome of `QueryTendermintLightBlock`: serialized bytes, a
returned error, or a nil-pointer dereference (a Go runtime panic). -/
inductive LightBlockOutcome where
  | ok : List Nat → LightBlockOutcome
  | err : String → LightBlockOutcome
  | nilDeref : LightBlockOutcome
  deriving DecidableEq

/-- Mirrors `QueryTendermintLightBlock` (executor.go lines 224-243).
In the source the `err` of the validator query is overwritten by the
commit query's `err` before any check, so the first `if err != nil`
tests only the commit error and the second one (after
`NewValidatorSet`) re-tests the same, already-checked variable and is
dead.  When the validator query failed and the commit query
succeeded, `validators` is nil and `validators.Validators`
dereferences a nil pointer: that control path is `nilDeref`.  The
`NewValidatorSet` + `ToProto` + `Marshal` pipeline is abstracted as
the `serialize` argument (its error return is the checked `ToProto`
error). -/
def QueryTendermintLightBlock
    (serialize : ResultCommit → List Validator → Except String (List Nat))
    (validatorsRes : Except String ResultValidators)
    (commitRes : Except String ResultCommit) : LightBlockOutcome :=
  match commitRes with
  | Except.error e => LightBlockOutcome.err e
  | Except.ok commit =>
    match validatorsRes with
    | Except.error _ => LightBlockOutcome.nilDeref
    | Except.ok vres =>
      match serialize commit vres.validators with
      | Except.error e => LightBlockOutcome.err e
      | Except.ok bs => LightBlockOutcome.ok bs

/-- Mirrors `QueryCachedLatestValidators`: return the cache when its
length is non-zero, otherwise perform one blocking fetch (`fetch` is
the outcome of `queryLatestValidators` on the active handle).
Returns the call result, the executor afterwards and the number of
remote fetches performed. -/
def QueryCachedLatestValidators (e : Executor)
    (fetch : Except String (List Validator)) :
    Except String (List Validator) × Executor × Nat :=
  if e.validators.length ≠ 0 then (Except.ok e.validators, e, 0)
  else
    match fetch with
    | Except.error err => (Except.error err, e, 1)
    | Except.ok vs => (Except.ok vs, e, 1)

/-- Mirrors one iteration of `UpdateCachedLatestValidatorsLoop`: on a
failed fetch log and keep the cache, on success replace the cached
sequence wholesale. -/
def UpdateCachedLatestValidatorsTick (e : Executor)
    (fetch : Except String (List Validator)) : Executor :=
  match fetch with
  | Except.error _ => e
  | Except.ok vs => { e with validators := vs }

/-- Lowercase hexadecimal digit of a nibble, as produced by the Go hex
encoder. -/
def hexDigit (n : Nat) : Char :=
  if n < 10 then Char.ofNat (48 + n) else Char.ofNat (87 + n)

/-- Two lowercase hex digits of one byte, high nibble first, matching
the per-byte behaviour of `hex.EncodeToString`. -/
def hexEncodeByte (b : Nat) : List Char :=
  [hexDigit (b % 256 / 16), hexDigit (b % 16)]

/-- Mirrors `hex.EncodeToString` over a byte sequence. -/
def hexEncode (bs : List Nat) : String :=
  String.mk (bs.foldr (fun b acc => hexEncodeByte b ++ acc) [])

/-- Mirrors `GetValidatorsBlsPublicKey`: read the cached validators
and, on success, hex-encode each validator's `RelayerBlsKey` in
order; an error from the cached read is returned as is. -/
def GetValidatorsBlsPublicKey (e : Executor)
    (fetch : Except String (List Validator)) : Except String (List String) :=
  match (QueryCachedLatestValidators e fetch).1 with
  | Except.error err => Except.error err
  | Except.ok vs => Except.ok (vs.map fun v => hexEncode v.relayerBlsKey)

/-- Height of the head handle. -/
lemma heightAt_cons_zero (c : ExecutorClient) (l : List ExecutorClient) :
    heightAt (c :: l) 0 = c.height := rfl

/-- Height at a successor index steps into the tail. -/
lemma heightAt_cons_succ (c : ExecutorClient) (l : List ExecutorClient) (k : Nat) :
    heightAt (c :: l) (k + 1) = heightAt l k := by
  simp [heightAt, List.getD_cons_succ]

/-- Full characterisation of the highest-height scan: either the
accumulator survives and dominates every height of the list, or the
scan returns the height and absolute index of the first handle
attaining the maximum, which strictly dominates the accumulator and
every earlier handle. -/
lemma findHighestAux_spec :
    ∀ (l : List ExecutorClient) (i bh bi : Nat),
      (findHighestAux l i (bh, bi) = (bh, bi) ∧
        ∀ k, k < l.length → heightAt l k ≤ bh) ∨
      (∃ k, k < l.length ∧
        findHighestAux l i (bh, bi) = (heightAt l k, i + k) ∧
        bh < heightAt l k ∧
        (∀ j, j < k → heightAt l j < heightAt l k) ∧
        (∀ j, j < l.length → heightAt l j ≤ heightAt l k)) := by
  intro l
  induction l with
  | nil =>
    intro i bh bi
    left
    refine ⟨rfl, ?_⟩
    intro k hk
    simp at hk
  | cons c rest ih =>
    intro i bh bi
    by_cases hc : bh < c.height
    · rcases ih (i + 1) c.height i with ⟨heq, hle⟩ | ⟨k, hk, heq, hlt, hfirst, hmax⟩
      · right
        refine ⟨0, by simp, ?_, ?_, ?_, ?_⟩
        · simpa [findHighestAux, if_pos hc, heightAt_cons_zero] using heq
        · simpa [heightAt_cons_zero] using hc
        · intro j hj; omega
        · intro j hj
          cases j with
          | zero => simp [heightAt_cons_zero]
          | succ j' =>
            rw [heightAt_cons_succ, heightAt_cons_zero]
            exact hle j' (by simpa using hj)
      · right
        refine ⟨k + 1, by simpa using hk, ?_, ?_, ?_, ?_⟩
        · rw [heightAt_cons_succ]
          have : i + (k + 1) = (i + 1) + k := by omega
          rw [this]
          simpa [findHighestAux, if_pos hc] using heq
        · rw [heightAt_cons_succ]; exact hc.trans hlt
        · intro j hj
          cases j with
          | zero => rw [heightAt_cons_zero, heightAt_cons_succ]; exact hlt
          | succ j' =>
            rw [heightAt_cons_succ, heightAt_cons_succ]
            exact hfirst j' (by omega)
        · intro j hj
          cases j with
          | zero => rw [heightAt_cons_zero, heightAt_cons_succ]; exact hlt.le
          | succ j' =>
            rw [heightAt_cons_succ, heightAt_cons_succ]
            exact hmax j' (by simpa using hj)
    · have hcle : c.height ≤ bh := Nat.not_lt.mp hc
      rcases ih (i + 1) bh bi with ⟨heq, hle⟩ | ⟨k, hk, heq, hlt, hfirst, hmax⟩
      · left
        refine ⟨?_, ?_⟩
        · simpa [findHighestAux, if_neg hc] using heq
        · intro j hj
          cases j with
          | zero => rw [heightAt_cons_zero]; exact hcle
          | succ j' =>
            rw [heightAt_cons_succ]
            exact hle j' (by simpa using hj)
      · right
        refine ⟨k + 1, by simpa using hk, ?_, ?_, ?_, ?_⟩
        · rw [heightAt_cons_succ]
          have : i + (k + 1) = (i + 1) + k := by omega
          rw [this]
          simpa [findHighestAux, if_neg hc] using heq
        · rw [heightAt_cons_succ]; exact hlt
        · intro j hj
          cases j with
          | zero =>
            rw [heightAt_cons_zero, heightAt_cons_succ]
            exact Nat.lt_of_le_of_lt hcle hlt
          | succ j' =>
            rw [heightAt_cons_succ, heightAt_cons_succ]
            exact hfirst j' (by omega)
        · intro j hj
          cases j with
          | zero =>
            rw [heightAt_cons_zero, heightAt_cons_succ]
            exact (Nat.lt_of_le_of_lt hcle hlt).le
          | succ j' =>
            rw [heightAt_cons_succ, heightAt_cons_succ]
            exact hmax j' (by simpa using hj)

/-- On a non-empty handle list, the scan's index is in range, its
height is the recorded maximum, every earlier handle is strictly
below it (first-seen wins ties), and no handle exceeds it. -/
lemma findHighest_spec (l : List ExecutorClient) (hl : l ≠ []) :
    (findHighest l).2 < l.length ∧
    heightAt l (findHighest l).2 = (findHighest l).1 ∧
    (∀ j, j < (findHighest l).2 → heightAt l j < (findHighest l).1) ∧
    (∀ j, j < l.length → heightAt l j ≤ (findHighest l).1) := by
  have hlen : 0 < l.length := List.length_pos.mpr hl
  rcases findHighestAux_spec l 0 0 0 with ⟨heq, hle⟩ | ⟨k, hk, heq, hlt, hfirst, hmax⟩
  · unfold findHighest
    rw [heq]
    refine ⟨hlen, ?_, ?_, ?_⟩
    · exact Nat.le_zero.mp (hle 0 hlen)
    · intro j hj; omega
    · intro j hj; exact hle j hj
  · unfold findHighest
    rw [heq]
    exact ⟨by simpa using hk, by simp, by simpa using hfirst, by simpa using hmax⟩

/-- The collect phase preserves the number of handles. -/
lemma collectClients_length (denyT now : Nat) (poll : Nat → Except String Nat) :
    ∀ (l : List ExecutorClient) (i0 : Nat),
      (collectClients denyT now poll i0 l).1.length = l.length := by
  intro l
  induction l with
  | nil => intro i0; rfl
  | cons c rest ih => intro i0; simp [collectClients, ih]

/-- The collect phase rewrites the handle at index `k` to the result
of `updateClient` on the poll outcome of that handle. -/
lemma collectClients_getD (denyT now : Nat) (poll : Nat → Except String Nat) :
    ∀ (l : List ExecutorClient) (i0 k : Nat), k < l.length →
      (collectClients denyT now poll i0 l).1.getD k default =
        (updateClient denyT now (poll (i0 + k)) (l.getD k default)).1 := by
  intro l
  induction l with
  | nil => intro i0 k hk; simp at hk
  | cons c rest ih =>
    intro i0 k hk
    cases k with
    | zero => simp [collectClients]
    | succ k' =>
      have : i0 + (k' + 1) = (i0 + 1) + k' := by omega
      rw [this]
      simpa [collectClients, List.getD_cons_succ] using ih (i0 + 1) k' (by simpa using hk)

/-- The per-handle step never emits an alert-sink message: the send to
the alert collaborator is commented out in the source. -/
lemma updateClient_alerts (denyT now : Nat) (p : Except String Nat) (c : ExecutorClient) :
    (updateClient denyT now p c).2.2 = [] := by
  cases p <;> rfl

/-- Hence the whole collect phase emits no alert-sink message. -/
lemma collectClients_alerts (denyT now : Nat) (poll : Nat → Except String Nat) :
    ∀ (l : List ExecutorClient) (i0 : Nat),
      (collectClients denyT now poll i0 l).2.2 = [] := by
  intro l
  induction l with
  | nil => intro i0; rfl
  | cons c rest ih =>
    intro i0
    simp [collectClients, updateClient_alerts, ih]

/-- Any log line produced by the per-handle step at index `k` appears
in the collect phase's log output. -/
lemma collectClients_log_mem (denyT now : Nat) (poll : Nat → Except String Nat) :
    ∀ (l : List ExecutorClient) (i0 k : Nat), k < l.length →
      ∀ x, x ∈ (updateClient denyT now (poll (i0 + k)) (l.getD k default)).2.1 →
        x ∈ (collectClients denyT now poll i0 l).2.1 := by
  intro l
  induction l with
  | nil => intro i0 k hk; simp at hk
  | cons c rest ih =>
    intro i0 k hk x hx
    cases k with
    | zero =>
      simp only [collectClients, List.mem_append]
      left
      simpa using hx
    | succ k' =>
      simp only [collectClients, List.mem_append]
      right
      have : i0 + (k' + 1) = (i0 + 1) + k' := by omega
      rw [this] at hx
      exact ih (i0 + 1) k' (by simpa using hk) x (by simpa [List.getD_cons_succ] using hx)

/-- A stale handle's message is among the per-handle step's log lines
whatever the poll outcome. -/
lemma updateClient_stale_log (denyT now : Nat) (p : Except String Nat)
    (c : ExecutorClient) (hst : denyT < now - c.updatedAt) :
    ("data seed " ++ c.provider ++ " is not accessable") ∈
      (updateClient denyT now p c).2.1 := by
  cases p <;> simp [updateClient, if_pos hst]

/-- The handles after a tick are the collect phase's handles. -/
lemma updateClientTick_clients (denyT fallT now : Nat)
    (poll : Nat → Except String Nat) (e : Executor) :
    (updateClientTick denyT fallT now poll e).state.greenfieldClients =
      (collectClients denyT now poll 0 e.greenfieldClients).1 := rfl

/-- The active index after a tick is the guarded reassignment of the
source's switch step. -/
lemma updateClientTick_idx (denyT fallT now : Nat)
    (poll : Nat → Except String Nat) (e : Executor) :
    (updateClientTick denyT fallT now poll e).state.clientIdx =
      (if (heightAt (collectClients denyT now poll 0 e.greenfieldClients).1
              e.clientIdx + fallT) % 2 ^ 64 <
          (findHighest (collectClients denyT now poll 0 e.greenfieldClients).1).1 then
        (findHighest (collectClients denyT now poll 0 e.greenfieldClients).1).2
      else e.clientIdx) := rfl

/-- A tick preserves the number of handles. -/
lemma updateClientTick_length (denyT fallT now : Nat)
    (poll : Nat → Except String Nat) (e : Executor) :
    (updateClientTick denyT fallT now poll e).state.greenfieldClients.length =
      e.greenfieldClients.length := by
  rw [updateClientTick_clients]
  exact collectClients_length denyT now poll e.greenfieldClients 0

/-- A tick keeps the active index inside the handle list. -/
lemma updateClientTick_idx_lt (denyT fallT now : Nat)
    (poll : Nat → Except String Nat) (e : Executor)
    (h : e.clientIdx < e.greenfieldClients.length) :
    (updateClientTick denyT fallT now poll e).state.clientIdx <
      (updateClientTick denyT fallT now poll e).state.greenfieldClients.length := by
  rw [updateClientTick_idx, updateClientTick_clients]
  have hlen : (collectClients denyT now poll 0 e.greenfieldClients).1.length =
      e.greenfieldClients.length :=
    collectClients_length denyT now poll e.greenfieldClients 0
  have hne : (collectClients denyT now poll 0 e.greenfieldClients).1 ≠ [] := by
    intro hnil
    rw [hnil] at hlen
    simp at hlen
    omega
  split
  · exact ((findHighest_spec _ hne).1).trans_eq rfl
  · omega

/-- Any tick sequence preserves the handle count and keeps the active
index in range. -/
lemma applyTicks_inv (denyT fallT : Nat) :
    ∀ (ticks : List (Nat × (Nat → Except String Nat))) (e : Executor),
      e.clientIdx < e.greenfieldClients.length →
      (applyTicks denyT fallT ticks e).clientIdx <
        (applyTicks denyT fallT ticks e).greenfieldClients.length ∧
      (applyTicks denyT fallT ticks e).greenfieldClients.length =
        e.greenfieldClients.length := by
  intro ticks
  induction ticks with
  | nil => intro e he; exact ⟨he, rfl⟩
  | cons tk rest ih =>
    intro e he
    obtain ⟨now, poll⟩ := tk
    have h1 := updateClientTick_idx_lt denyT fallT now poll e he
    have h2 := updateClientTick_length denyT fallT now poll e
    have := ih (updateClientTick denyT fallT now poll e).state h1
    exact ⟨(by simpa [applyTicks] using this.1),
      by simpa [applyTicks, h2] using this.2⟩

/-- An operation that fails on the attempts `n, …, n+k-1` and succeeds
on attempt `n+k` makes the retry combinator (given enough fuel) return
the success value after `k` logging callbacks and `k + 1` attempts. -/
lemma retryAux_succeeds {A : Type} (op : Nat → Except String A) (a : A) :
    ∀ (k fuel n : Nat), k ≤ fuel →
      (∀ i, i < k → ∃ e, op (n + i) = Except.error e) →
      op (n + k) = Except.ok a →
      retryAux op n fuel = (Except.ok a, k, k + 1) := by
  intro k
  induction k with
  | zero =>
    intro fuel n hk herr hok
    simp only [Nat.add_zero] at hok
    simp [retryAux, hok]
  | succ k' ih =>
    intro fuel n hk herr hok
    obtain ⟨e0, he0⟩ := herr 0 (by omega)
    simp only [Nat.add_zero] at he0
    obtain ⟨fuel', rfl⟩ : ∃ f, fuel = f + 1 := ⟨fuel - 1, by omega⟩
    have hrec := ih fuel' (n + 1) (by omega)
      (fun i hi => by
        obtain ⟨e, he⟩ := herr (i + 1) (by omega)
        exact ⟨e, by rw [← he]; ring_nf⟩)
      (by rw [← hok]; ring_nf)
    simp [retryAux, he0, hrec]

/-- An operation that fails on every attempt of the budget makes the
retry combinator return the last attempt's error after one logging
callback and one attempt per budget unit. -/
lemma retryAux_fails {A : Type} (op : Nat → Except String A) :
    ∀ (fuel n : Nat),
      (∀ i, i ≤ fuel → ∃ e, op (n + i) = Except.error e) →
      ∃ e, op (n + fuel) = Except.error e ∧
        retryAux op n fuel = (Except.error e, fuel + 1, fuel + 1) := by
  intro fuel
  induction fuel with
  | zero =>
    intro n herr
    obtain ⟨e, he⟩ := herr 0 (by omega)
    simp only [Nat.add_zero] at he
    exact ⟨e, by simpa using he, by simp [retryAux, he]⟩
  | succ fuel' ih =>
    intro n herr
    obtain ⟨e0, he0⟩ := herr 0 (by omega)
    simp only [Nat.add_zero] at he0
    obtain ⟨e, he, hrec⟩ := ih (n + 1)
      (fun i hi => by
        obtain ⟨e, hei⟩ := herr (i + 1) (by omega)
        exact ⟨e, by rw [← hei]; ring_nf⟩)
    refine ⟨e, by rw [← he]; ring_nf, ?_⟩
    simp [retryAux, he0, hrec]

/-- Constant serializer used to evaluate the light-block builder at
concrete inputs. -/
def serialize0 : ResultCommit → List Validator → Except String (List Nat) :=
  fun _ _ => Except.ok []

/-- Claim C1: evaluating `QueryTendermintLightBlock` at the failing
input shows the deviation: when the validator query fails while the
commit query succeeds, the call neither returns the validator error
nor any artifact: it dereferences the nil validator result (a Go
runtime panic, `nilDeref`), because the validator query's `err` was
overwritten before being checked.  A commit-query error does
propagate to the caller. -/
theorem lightBlock_validator_error_nilDeref :
    QueryTendermintLightBlock serialize0
        (Except.error "validators query failed")
        (Except.ok { signedHeader := "h" }) = LightBlockOutcome.nilDeref ∧
    QueryTendermintLightBlock serialize0
        (Except.ok { validators := [] })
        (Except.error "commit query failed") =
      LightBlockOutcome.err "commit query failed" :=
  ⟨rfl, rfl⟩

/-- A pool with a single handle whose last successful update is far in
the past relative to the tick time used below. -/
def staleExecutor : Executor :=
  { clientIdx := 0
    greenfieldClients := [{ provider := "p1", height := 0, updatedAt := 0 }]
    validators := [] }

/-- Claim C2 counterexample: at time 100 with deny-service threshold
10 the single handle is stale, yet the tick's alert-sink output is
empty, so no text message naming the provider reaches the alert
collaborator (the send to it is commented out in the source); the
claim asserts such a message is emitted. -/
theorem staleness_alert_counterexample :
    10 < 100 - (staleExecutor.greenfieldClients.getD 0 default).updatedAt ∧
    (updateClientTick 10 5 100 (fun _ => Except.ok 7) staleExecutor).alerts = [] ∧
    "data seed p1 is not accessable" ∉
      (updateClientTick 10 5 100 (fun _ => Except.ok 7) staleExecutor).alerts := by
  refine ⟨by decide, rfl, by decide⟩

/-- Claim C2 amended: in every tick of the monitor loop, for every
handle whose `UpdatedAt` is older than the deny-service threshold, a
text message naming the unreachable provider is written to the log
output, and nothing is sent to the alert collaborator (its alert-sink
output is empty). -/
theorem staleness_alert_amended (denyT fallT now : Nat)
    (poll : Nat → Except String Nat) (e : Executor) (i : Nat)
    (hi : i < e.greenfieldClients.length)
    (hstale : denyT < now - (e.greenfieldClients.getD i default).updatedAt) :
    ("data seed " ++ (e.greenfieldClients.getD i default).provider ++
        " is not accessable") ∈ (updateClientTick denyT fallT now poll e).logs ∧
    (updateClientTick denyT fallT now poll e).alerts = [] := by
  constructor
  · have hmem := updateClient_stale_log denyT now (poll (0 + i))
      (e.greenfieldClients.getD i default) hstale
    have hin := collectClients_log_mem denyT now poll e.greenfieldClients 0 i hi _ hmem
    exact List.mem_cons_of_mem _ hin
  · exact collectClients_alerts denyT now poll e.greenfieldClients 0

/-- Witness for the amended claim C2 at a concrete stale pool. -/
theorem staleness_alert_amended_witness :
    0 < staleExecutor.greenfieldClients.length ∧
    10 < 100 - (staleExecutor.greenfieldClients.getD 0 default).updatedAt ∧
    (("data seed " ++ (staleExecutor.greenfieldClients.getD 0 default).provider ++
        " is not accessable") ∈
        (updateClientTick 10 5 100 (fun _ => Except.error "e") staleExecutor).logs ∧
      (updateClientTick 10 5 100 (fun _ => Except.error "e") staleExecutor).alerts = []) :=
  ⟨by decide, by decide,
    staleness_alert_amended 10 5 100 (fun _ => Except.error "e") staleExecutor 0
      (by decide) (by decide)⟩

/-- A two-handle pool with heights `h1` and `h2` and active index 0. -/
def pool2 (h1 h2 : Nat) : Executor :=
  { clientIdx := 0
    greenfieldClients :=
      [{ provider := "A", height := h1, updatedAt := 0 },
       { provider := "B", height := h2, updatedAt := 0 }]
    validators := [] }

/-- The handles of `pool2`, spelled out. -/
lemma pool2_clients (h1 h2 : Nat) :
    (pool2 h1 h2).greenfieldClients =
      [{ provider := "A", height := h1, updatedAt := 0 },
       { provider := "B", height := h2, updatedAt := 0 }] := rfl

/-- The highest-height scan on a two-handle list. -/
lemma findHighest_pair (p1 p2 : String) (h1 h2 u1 u2 : Nat) :
    findHighest [{ provider := p1, height := h1, updatedAt := u1 },
      { provider := p2, height := h2, updatedAt := u2 }] =
      if h1 < h2 then (h2, 1) else if 0 < h1 then (h1, 0) else (0, 0) := by
  by_cases hA : 0 < h1
  · by_cases hB : h1 < h2
    · simp [findHighest, findHighestAux, hA, hB]
    · simp [findHighest, findHighestAux, hA, hB]
  · have h10 : h1 = 0 := by omega
    subst h10
    by_cases hB : 0 < h2
    · simp [findHighest, findHighestAux, hB]
    · simp [findHighest, findHighestAux, hB]

/-- One tick on `pool2` with every poll failing: the heights are left
as constructed and the switch decision reduces to the source's guard
on plain arithmetic (given no uint64 overflow). -/
lemma tick_pool2_error (denyT fallT now h1 h2 : Nat) (hov : h1 + fallT < 2 ^ 64) :
    (updateClientTick denyT fallT now (fun _ => Except.error "e")
        (pool2 h1 h2)).state.clientIdx =
      if h1 + fallT < (findHighest (pool2 h1 h2).greenfieldClients).1 then
        (findHighest (pool2 h1 h2).greenfieldClients).2
      else 0 := by
  rw [updateClientTick_idx]
  have hcol : (collectClients denyT now (fun _ => Except.error "e") 0
      (pool2 h1 h2).greenfieldClients).1 = (pool2 h1 h2).greenfieldClients := rfl
  rw [hcol]
  have h1eq : heightAt (pool2 h1 h2).greenfieldClients (pool2 h1 h2).clientIdx = h1 := rfl
  rw [h1eq, Nat.mod_eq_of_lt hov]
  rfl

/-- Claim C3: in a tick, after collecting heights, the active index is
reassigned to `highestIdx` exactly when the active handle's collected
height plus the fall-behind threshold is strictly below
`highestHeight` (in the overflow-free range of uint64 addition); with
heights `[100, 100 + fallT - 1]` no switch occurs, with
`[100, 100 + fallT + 1]` the pool switches to the higher handle. -/
theorem monitor_switch_iff (denyT fallT now : Nat)
    (poll : Nat → Except String Nat) (e : Executor)
    (hidx : e.clientIdx < e.greenfieldClients.length)
    (hov : heightAt (collectClients denyT now poll 0 e.greenfieldClients).1
        e.clientIdx + fallT < 2 ^ 64)
    (hov2 : 100 + fallT < 2 ^ 64) :
    ((updateClientTick denyT fallT now poll e).state.clientIdx =
      if heightAt (collectClients denyT now poll 0 e.greenfieldClients).1
            e.clientIdx + fallT <
          (findHighest (collectClients denyT now poll 0 e.greenfieldClients).1).1 then
        (findHighest (collectClients denyT now poll 0 e.greenfieldClients).1).2
      else e.clientIdx) ∧
    (updateClientTick denyT fallT now (fun _ => Except.error "e")
        (pool2 100 (100 + fallT - 1))).state.clientIdx = 0 ∧
    (updateClientTick denyT fallT now (fun _ => Except.error "e")
        (pool2 100 (100 + fallT + 1))).state.clientIdx = 1 := by
  refine ⟨?_, ?_, ?_⟩
  · rw [updateClientTick_idx, Nat.mod_eq_of_lt hov]
  · rw [tick_pool2_error denyT fallT now 100 (100 + fallT - 1) hov2]
    rw [pool2_clients, findHighest_pair]
    by_cases hb : 100 < 100 + fallT - 1
    · rw [if_pos hb]
      dsimp only
      rw [if_neg (by omega)]
    · rw [if_neg hb, if_pos (by norm_num : (0 : Nat) < 100)]
      dsimp only
      rw [if_neg (by omega)]
  · rw [tick_pool2_error denyT fallT now 100 (100 + fallT + 1) hov2]
    rw [pool2_clients, findHighest_pair]
    rw [if_pos (by omega : 100 < 100 + fallT + 1)]
    dsimp only
    rw [if_pos (by omega)]

/-- Witness for claim C3 at a concrete pool and poll. -/
theorem monitor_switch_iff_witness :
    (pool2 5 5).clientIdx < (pool2 5 5).greenfieldClients.length ∧
    (updateClientTick 0 3 1 (fun _ => Except.ok 7) (pool2 5 5)).state.clientIdx = 0 := by
  refine ⟨by decide, ?_⟩
  have h := (monitor_switch_iff 0 3 1 (fun _ => Except.ok 7) (pool2 5 5)
      (by decide) (by decide) (by decide)).1
  rw [h]
  decide

/-- When a tick does change the active index, the new active handle's
collected height strictly exceeds the old active handle's collected
height by more than the fall-behind threshold (in the overflow-free
range of the uint64 addition). -/
lemma updateClientTick_switch (denyT fallT now : Nat)
    (poll : Nat → Except String Nat) (e : Executor)
    (h : e.clientIdx < e.greenfieldClients.length)
    (hne : (updateClientTick denyT fallT now poll e).state.clientIdx ≠ e.clientIdx)
    (hov : heightAt (updateClientTick denyT fallT now poll e).state.greenfieldClients
        e.clientIdx + fallT < 2 ^ 64) :
    heightAt (updateClientTick denyT fallT now poll e).state.greenfieldClients
        e.clientIdx + fallT <
      heightAt (updateClientTick denyT fallT now poll e).state.greenfieldClients
        (updateClientTick denyT fallT now poll e).state.clientIdx := by
  by_cases hcond :
      (heightAt (collectClients denyT now poll 0 e.greenfieldClients).1 e.clientIdx +
          fallT) % 2 ^ 64 <
        (findHighest (collectClients denyT now poll 0 e.greenfieldClients).1).1
  · have hLlen := collectClients_length denyT now poll e.greenfieldClients 0
    have hLne : (collectClients denyT now poll 0 e.greenfieldClients).1 ≠ [] := by
      intro h0
      rw [h0] at hLlen
      simp at hLlen
      omega
    have hspec := findHighest_spec _ hLne
    have hidx2 : (updateClientTick denyT fallT now poll e).state.clientIdx =
        (findHighest (collectClients denyT now poll 0 e.greenfieldClients).1).2 := by
      rw [updateClientTick_idx, if_pos hcond]
    rw [updateClientTick_clients] at hov ⊢
    rw [hidx2, hspec.2.1]
    rw [Nat.mod_eq_of_lt hov] at hcond
    exact hcond
  · exfalso
    apply hne
    rw [updateClientTick_idx, if_neg hcond]

/-- A pool state reachable from construction by a given tick
sequence. -/
def reachedState (denyT fallT now0 : Nat) (rpcAddrs : List String)
    (ticks : List (Nat × (Nat → Except String Nat))) : Executor :=
  applyTicks denyT fallT ticks (NewGreenfieldExecutor rpcAddrs now0)

/-- Claim C4 counterexample: constructing the pool from an empty
address list already violates the claimed invariant: the active index
0 is not a valid index into the (empty) handle sequence, and the
empty tick sequence reaches that state. -/
theorem activeIndex_empty_pool_counterexample :
    ¬ ((NewGreenfieldExecutor [] 0).clientIdx <
        (NewGreenfieldExecutor [] 0).greenfieldClients.length) := by decide

/-- Claim C4 amended: provided the pool is constructed from a
non-empty configured address list, every state reachable by any
sequence of monitor-loop ticks has a valid active index, and a
further tick changes the active index only to an index whose
collected height strictly exceeds the active handle's collected
height by more than the fall-behind threshold (in the overflow-free
range of the uint64 addition).  The exclusive-lock discipline is a
concurrency property outside this embedding; in the model the monitor
tick is the only operation that writes the index. -/
theorem activeIndex_invariant (denyT fallT now0 now : Nat) (rpcAddrs : List String)
    (ticks : List (Nat × (Nat → Except String Nat)))
    (poll : Nat → Except String Nat) (hne : rpcAddrs ≠ []) :
    (reachedState denyT fallT now0 rpcAddrs ticks).clientIdx <
      (reachedState denyT fallT now0 rpcAddrs ticks).greenfieldClients.length ∧
    ((updateClientTick denyT fallT now poll
          (reachedState denyT fallT now0 rpcAddrs ticks)).state.clientIdx ≠
        (reachedState denyT fallT now0 rpcAddrs ticks).clientIdx →
      heightAt (updateClientTick denyT fallT now poll
            (reachedState denyT fallT now0 rpcAddrs ticks)).state.greenfieldClients
          (reachedState denyT fallT now0 rpcAddrs ticks).clientIdx + fallT < 2 ^ 64 →
      heightAt (updateClientTick denyT fallT now poll
            (reachedState denyT fallT now0 rpcAddrs ticks)).state.greenfieldClients
          (reachedState denyT fallT now0 rpcAddrs ticks).clientIdx + fallT <
        heightAt (updateClientTick denyT fallT now poll
            (reachedState denyT fallT now0 rpcAddrs ticks)).state.greenfieldClients
          (updateClientTick denyT fallT now poll
            (reachedState denyT fallT now0 rpcAddrs ticks)).state.clientIdx) := by
  have hinit : (NewGreenfieldExecutor rpcAddrs now0).clientIdx <
      (NewGreenfieldExecutor rpcAddrs now0).greenfieldClients.length := by
    simpa [NewGreenfieldExecutor, initGreenfieldClients] using List.length_pos.mpr hne
  have hreach := applyTicks_inv denyT fallT ticks (NewGreenfieldExecutor rpcAddrs now0) hinit
  refine ⟨hreach.1, fun hdiff hov => ?_⟩
  exact updateClientTick_switch denyT fallT now poll
    (reachedState denyT fallT now0 rpcAddrs ticks) hreach.1 hdiff hov

/-- Concrete address list for the claim C4 witness. -/
def rpcAddrs0 : List String := ["node-a", "node-b"]

/-- Concrete tick sequence for the claim C4 witness. -/
def ticks0 : List (Nat × (Nat → Except String Nat)) :=
  [(1, fun _ => Except.ok 5)]

/-- Witness for the amended claim C4 at a concrete pool and tick
sequence. -/
theorem activeIndex_invariant_witness :
    rpcAddrs0 ≠ [] ∧
    (reachedState 0 1 0 rpcAddrs0 ticks0).clientIdx <
      (reachedState 0 1 0 rpcAddrs0 ticks0).greenfieldClients.length :=
  ⟨by decide,
    (activeIndex_invariant 0 1 0 2 rpcAddrs0 ticks0 (fun _ => Except.ok 9)
      (by decide)).1⟩

/-- Claim C5: ties in the maximum collected height are resolved to the
first handle encountered: on any non-empty handle list the scan's
index attains the recorded maximum while every earlier index is
strictly below it; and a tick on the pool `[A:200, B:200]` with `A`
active performs no switch. -/
theorem tie_break_first_seen (denyT fallT now : Nat) (l : List ExecutorClient)
    (hl : l ≠ []) (hov : 200 + fallT < 2 ^ 64) :
    (heightAt l (findHighest l).2 = (findHighest l).1 ∧
      ∀ j, j < (findHighest l).2 → heightAt l j < (findHighest l).1) ∧
    (updateClientTick denyT fallT now (fun _ => Except.error "e")
        (pool2 200 200)).state.clientIdx = 0 := by
  constructor
  · have h := findHighest_spec l hl
    exact ⟨h.2.1, h.2.2.1⟩
  · rw [tick_pool2_error denyT fallT now 200 200 hov]
    rw [pool2_clients, findHighest_pair]
    rw [if_neg (by omega : ¬ (200 : Nat) < 200), if_pos (by norm_num : (0 : Nat) < 200)]
    dsimp only
    rw [if_neg (by omega)]

/-- Witness for claim C5 on the two-handle tied pool. -/
theorem tie_break_first_seen_witness :
    (pool2 200 200).greenfieldClients ≠ [] ∧
    (updateClientTick 3 1 9 (fun _ => Except.error "e")
        (pool2 200 200)).state.clientIdx = 0 :=
  ⟨by decide,
    (tie_break_first_seen 3 1 9 (pool2 200 200).greenfieldClients
      (by decide) (by decide)).2⟩

/-- Claim C6: for the retry wrapper of the height-query path, an
operation failing on its first `N - 1` attempts and succeeding on
attempt `N ≤ maxAttempts` yields the success value with exactly
`N - 1` retry-logging callbacks (and `N` attempts); an operation
failing on every attempt yields the final error after exactly
`maxAttempts` attempts. -/
theorem retry_wrapper_spec {A : Type} (maxAttempts N : Nat)
    (op : Nat → Except String A) (a : A) (hmax : 1 ≤ maxAttempts) :
    (1 ≤ N → N ≤ maxAttempts →
      (∀ i, i < N - 1 → ∃ e, op i = Except.error e) →
      op (N - 1) = Except.ok a →
      getLatestBlockHeightWithRetry op maxAttempts = (Except.ok a, N - 1, N)) ∧
    ((∀ i, i < maxAttempts → ∃ e, op i = Except.error e) →
      ∃ e, op (maxAttempts - 1) = Except.error e ∧
        getLatestBlockHeightWithRetry op maxAttempts =
          (Except.error e, maxAttempts, maxAttempts)) := by
  constructor
  · intro hN1 hNm herr hok
    unfold getLatestBlockHeightWithRetry
    have hrun := retryAux_succeeds op a (N - 1) (maxAttempts - 1) 0 (by omega)
      (fun i hi => by simpa using herr i (by omega))
      (by simpa using hok)
    have hN : N - 1 + 1 = N := by omega
    rw [hN] at hrun
    exact hrun
  · intro herr
    unfold getLatestBlockHeightWithRetry
    obtain ⟨e, he, hr⟩ := retryAux_fails op (maxAttempts - 1) 0
      (fun i hi => by simpa using herr i (by omega))
    have hM : maxAttempts - 1 + 1 = maxAttempts := by omega
    rw [hM] at hr
    exact ⟨e, by simpa using he, hr⟩

/-- Concrete operation for the claim C6 witness: fails once, then
succeeds. -/
def opSucc2 : Nat → Except String Nat :=
  fun i => if i = 0 then Except.error "e0" else Except.ok 42

/-- Concrete operation for the claim C6 witness: fails always. -/
def opFailAll : Nat → Except String Nat :=
  fun _ => Except.error "boom"

/-- Witness for claim C6 with a 3-attempt budget. -/
theorem retry_wrapper_spec_witness :
    getLatestBlockHeightWithRetry opSucc2 3 = (Except.ok 42, 1, 2) ∧
    ∃ e, opFailAll 2 = Except.error e ∧
      getLatestBlockHeightWithRetry opFailAll 3 = (Except.error e, 3, 3) := by
  constructor
  · exact (retry_wrapper_spec 3 2 opSucc2 42 (by decide)).1 (by decide) (by decide)
      (fun i hi => ⟨"e0", by
        have h0 : i = 0 := by omega
        subst h0
        rfl⟩) rfl
  · exact (retry_wrapper_spec 3 2 opFailAll 42 (by decide)).2
      (fun i hi => ⟨"boom", rfl⟩)

/-- Claim C7: within one monitor tick, a handle whose height query
fails (after its retry budget, which is inside `poll`) keeps its
`Height` and `UpdatedAt` unchanged, while any other handle whose
query succeeds is still updated — the loop proceeds past the failure —
and the handle count is preserved (the tick is a total function of
the poll outcomes, so a poll failure never terminates the loop). -/
theorem poll_failure_frame (denyT fallT now : Nat)
    (poll : Nat → Except String Nat) (e : Executor) (i j : Nat)
    (hi : i < e.greenfieldClients.length) (hj : j < e.greenfieldClients.length)
    (errI : String) (hpi : poll i = Except.error errI)
    (hgt : Nat) (hpj : poll j = Except.ok hgt) :
    (updateClientTick denyT fallT now poll e).state.greenfieldClients.getD i default =
      e.greenfieldClients.getD i default ∧
    (updateClientTick denyT fallT now poll e).state.greenfieldClients.getD j default =
      { e.greenfieldClients.getD j default with height := hgt, updatedAt := now } ∧
    (updateClientTick denyT fallT now poll e).state.greenfieldClients.length =
      e.greenfieldClients.length := by
  refine ⟨?_, ?_, updateClientTick_length denyT fallT now poll e⟩
  · rw [updateClientTick_clients,
      collectClients_getD denyT now poll e.greenfieldClients 0 i hi]
    simp only [Nat.zero_add]
    rw [hpi]
    rfl
  · rw [updateClientTick_clients,
      collectClients_getD denyT now poll e.greenfieldClients 0 j hj]
    simp only [Nat.zero_add]
    rw [hpj]
    rfl

/-- Poll used by the claim C7 witness: handle 0 unreachable, handle 1
healthy. -/
def pollW : Nat → Except String Nat :=
  fun i => if i = 0 then Except.error "down" else Except.ok 70

/-- Witness for claim C7: on a concrete two-handle pool the failing
handle is untouched while the succeeding one is refreshed. -/
theorem poll_failure_frame_witness :
    0 < (pool2 50 60).greenfieldClients.length ∧
    1 < (pool2 50 60).greenfieldClients.length ∧
    pollW 0 = Except.error "down" ∧
    (updateClientTick 1 2 9 pollW (pool2 50 60)).state.greenfieldClients.getD 0 default =
      (pool2 50 60).greenfieldClients.getD 0 default :=
  ⟨by decide, by decide, rfl,
    (poll_failure_frame 1 2 9 pollW (pool2 50 60) 0 1 (by decide) (by decide)
      "down" rfl 70 rfl).1⟩

/-- Claim C8: with a non-empty cache the on-demand read returns the
cached sequence with no remote fetch; after a failed background
refresh the cache is kept, so a subsequent on-demand read still
returns the last successfully cached sequence; and only on an empty
cache does the on-demand read perform a (single, blocking) fetch. -/
theorem validator_cache_spec (e e0 : Executor)
    (fetch fetch2 f : Except String (List Validator)) (err : String)
    (hne : e.validators ≠ []) (h0 : e0.validators = []) :
    QueryCachedLatestValidators e fetch = (Except.ok e.validators, e, 0) ∧
    QueryCachedLatestValidators
        (UpdateCachedLatestValidatorsTick e (Except.error err)) fetch2 =
      (Except.ok e.validators, e, 0) ∧
    (QueryCachedLatestValidators e0 f).2.2 = 1 := by
  have hlen : e.validators.length ≠ 0 := by
    simpa [List.length_eq_zero] using hne
  refine ⟨?_, ?_, ?_⟩
  · simp [QueryCachedLatestValidators, hlen]
  · have hkeep : UpdateCachedLatestValidatorsTick e (Except.error err) = e := rfl
    rw [hkeep]
    simp [QueryCachedLatestValidators, hlen]
  · have hl0 : e0.validators.length = 0 := by simp [h0]
    cases f <;> simp [QueryCachedLatestValidators, hl0]

/-- Concrete validator for the cache witnesses. -/
def validator0 : Validator := { address := "v0", relayerBlsKey := [0, 255] }

/-- Executor with a populated validator cache. -/
def cachedExecutor : Executor :=
  { clientIdx := 0, greenfieldClients := [], validators := [validator0] }

/-- Executor with an empty validator cache. -/
def emptyCacheExecutor : Executor :=
  { clientIdx := 0, greenfieldClients := [], validators := [] }

/-- Witness for claim C8: after a failed refresh, the on-demand read
still returns the previously cached sequence. -/
theorem validator_cache_spec_witness :
    cachedExecutor.validators ≠ [] ∧
    QueryCachedLatestValidators
        (UpdateCachedLatestValidatorsTick cachedExecutor (Except.error "refresh failed"))
        (Except.ok []) = (Except.ok cachedExecutor.validators, cachedExecutor, 0) :=
  ⟨by decide,
    (validator_cache_spec cachedExecutor emptyCacheExecutor (Except.error "x")
      (Except.ok []) (Except.ok []) "refresh failed" (by decide) (by decide)).2.1⟩

/-- Claim C9: the on-demand validator read never writes the cache —
the executor it returns is the one it was given — and on an empty
cache with a successful blocking fetch it returns the fetched
sequence while the cache stays empty and one remote fetch was
performed (so every on-demand call before the first successful
background refresh fetches again). -/
theorem on_demand_read_frame (e : Executor)
    (fetch : Except String (List Validator)) (vs : List Validator)
    (idx : Nat) (cs : List ExecutorClient) :
    (QueryCachedLatestValidators e fetch).2.1 = e ∧
    QueryCachedLatestValidators
        { clientIdx := idx, greenfieldClients := cs, validators := [] }
        (Except.ok vs) =
      (Except.ok vs, { clientIdx := idx, greenfieldClients := cs, validators := [] }, 1) := by
  constructor
  · by_cases hl : e.validators.length ≠ 0
    · simp [QueryCachedLatestValidators, hl]
    · cases fetch <;> simp [QueryCachedLatestValidators, hl]
  · rfl

/-- Index-wise description of the mapped key list produced by the BLS
key getter. -/
lemma getD_map_hexEncode :
    ∀ (vs : List Validator) (i : Nat), i < vs.length →
      (vs.map fun v => hexEncode v.relayerBlsKey).getD i "" =
        hexEncode ((vs.getD i default).relayerBlsKey) := by
  intro vs
  induction vs with
  | nil => intro i hi; simp at hi
  | cons v rest ih =>
    intro i hi
    cases i with
    | zero => rfl
    | succ i' =>
      simpa [List.getD_cons_succ] using ih i' (by simpa using hi)

/-- Claim C10: `GetValidatorsBlsPublicKey` is the per-validator hex
encoding mapped over the cached-validator read; it returns a failure
exactly when that read fails (and with the same error), and on a
successful read it returns the hex encoding of each validator's BLS
relayer key, one entry per validator in the same order. -/
theorem bls_keys_spec (e : Executor) (fetch : Except String (List Validator)) :
    GetValidatorsBlsPublicKey e fetch =
      Except.map (fun l => l.map fun v => hexEncode v.relayerBlsKey)
        (QueryCachedLatestValidators e fetch).1 ∧
    (∀ err, GetValidatorsBlsPublicKey e fetch = Except.error err ↔
        (QueryCachedLatestValidators e fetch).1 = Except.error err) ∧
    (∀ vs, (QueryCachedLatestValidators e fetch).1 = Except.ok vs →
        GetValidatorsBlsPublicKey e fetch =
          Except.ok (vs.map fun v => hexEncode v.relayerBlsKey) ∧
        (vs.map fun v => hexEncode v.relayerBlsKey).length = vs.length ∧
        ∀ i, i < vs.length →
          (vs.map fun v => hexEncode v.relayerBlsKey).getD i "" =
            hexEncode ((vs.getD i default).relayerBlsKey)) := by
  refine ⟨?_, ?_, ?_⟩
  · cases hq : (QueryCachedLatestValidators e fetch).1 <;>
      simp [GetValidatorsBlsPublicKey, hq, Except.map]
  · intro err
    cases hq : (QueryCachedLatestValidators e fetch).1 <;>
      simp [GetValidatorsBlsPublicKey, hq]
  · intro vs hq
    exact ⟨by simp [GetValidatorsBlsPublicKey, hq], by simp,
      fun i hi => getD_map_hexEncode vs i hi⟩

/-- Witness for claim C10: a failing cached read (empty cache,
failing fetch) propagates its error, and a successful one (populated
cache) yields the hex-encoded key list. -/
theorem bls_keys_spec_witness :
    GetValidatorsBlsPublicKey emptyCacheExecutor (Except.error "transport down") =
      Except.error "transport down" ∧
    GetValidatorsBlsPublicKey cachedExecutor (Except.error "x") =
      Except.ok [hexEncode validator0.relayerBlsKey] :=
  ⟨((bls_keys_spec emptyCacheExecutor (Except.error "transport down")).2.1
      "transport down").mpr rfl,
    ((bls_keys_spec cachedExecutor (Except.error "x")).2.2 [validator0] rfl).1⟩
